import Mathlib

/-
  Shallow embedding of tournament.py (Swiss-system tournament pairing).

  The database tables (player, entrant, match) are modelled as lists of
  records inside a `DB` structure; the SQL serial match id is a counter.
  Python 2's `sorted(.., cmp=..)` is a stable comparator sort; it is
  modelled as a stable insertion sort in which each element is inserted
  before the first previously-sorted element it compares strictly less
  than.  SQL `ORDER BY wins DESC` is modelled the same way (stable
  descending sort); tie order among equal keys follows table order.
-/

namespace Tournament

/-- Result kind constants from tournament.py. -/
def WIN : Nat := 1

def LOSS : Nat := 2

def TIE : Nat := 3

def BYE : Nat := 4

/-- A row of the player table: id, name, cumulative wins, cumulative matches. -/
structure Player where
  pid : Nat
  pname : String
  wins : Nat
  played : Nat
  deriving DecidableEq, Repr

/-- A row of the entrant table: player, tournament, bye flag. -/
structure Entrant where
  player_id : Nat
  tournament_id : Nat
  bye : Bool
  deriving DecidableEq, Repr

/-- A row of the match table: shared match id, player, tournament, result kind. -/
structure MatchRow where
  mid : Nat
  player_id : Nat
  tournament_id : Nat
  result_id : Nat
  deriving DecidableEq, Repr

/-- The tournament database; `next_match_id` models the serial id column. -/
structure DB where
  players : List Player
  entrants : List Entrant
  rows : List MatchRow
  next_match_id : Nat
  deriving DecidableEq, Repr

/-- A standings row `(id, name, wins, matches)` as returned by the standings query. -/
structure Standing where
  pid : Nat
  pname : String
  wins : Nat
  played : Nat
  deriving DecidableEq, Repr

/-- `standing[:2]` in the Python code: the `(id, name)` pair kept for pairing. -/
abbrev Pair := Nat × String

/-- A returned pairing `(id1, name1, id2, name2)`. -/
abbrev Pairing := Nat × String × Nat × String

/-- Stable insertion of `x` into an already-processed list: `x` goes
immediately before the first element `y` with `lt x y`.  This is the
insertion step of a stable comparator-based sort. -/
def insertStable (lt : α → α → Bool) (x : α) : List α → List α
  | [] => [x]
  | y :: ys => if lt x y then x :: y :: ys else y :: insertStable lt x ys

/-- Stable comparator sort: Python 2 `sorted(l, cmp=..)` with
`lt a b = (cmp a b < 0)`, and SQL `ORDER BY` with the key comparison. -/
def sortedCmp (lt : α → α → Bool) (l : List α) : List α :=
  l.foldl (fun acc x => insertStable lt x acc) []

/-- Match ids of all rows of `player` in `tournament` (the subquery of
`player_opponents`). -/
def playerMatchIds (db : DB) (player tournament : Nat) : List Nat :=
  (db.rows.filter
    (fun m => m.player_id == player && m.tournament_id == tournament)).map MatchRow.mid

/-- `player_opponents`: ids of players sharing a match id with `player`
in `tournament`, excluding `player` itself. -/
def player_opponents (db : DB) (player tournament : Nat) : List Nat :=
  (db.rows.filter
    (fun m => (playerMatchIds db player tournament).contains m.mid &&
      m.player_id != player)).map MatchRow.player_id

/-- `player_opponents_match_wins`: sum of current wins over the player
rows whose id is among the opponents (0 when there are no opponents). -/
def player_opponents_match_wins (db : DB) (player tournament : Nat) : Nat :=
  let opponents := player_opponents db player tournament
  if opponents.length = 0 then 0
  else ((db.players.filter (fun p => opponents.contains p.pid)).map Player.wins).sum

/-- The join `FROM player p, entrant e WHERE p.id = e.player_id AND
tournament_id = t`, in nested-loop order. -/
def standingRows (db : DB) (t : Nat) : List Standing :=
  db.players.flatMap (fun p =>
    (db.entrants.filter
      (fun e => e.player_id == p.pid && e.tournament_id == t)).map
        (fun _ => ⟨p.pid, p.pname, p.wins, p.played⟩))

/-- `player_standings_by_tournament`: the join ordered by wins descending. -/
def player_standings_by_tournament (db : DB) (t : Nat) : List Standing :=
  sortedCmp (fun a b => decide (b.wins < a.wins)) (standingRows db t)

/-- `player_has_received_bye`: Python indexes `result[0][0]`; with no
entrant row this raises (no row to index), modelled as `none`. -/
def player_has_received_bye (db : DB) (player tournament : Nat) : Option Bool :=
  ((db.entrants.filter
    (fun e => e.player_id == player && e.tournament_id == tournament)).head?).map
      Entrant.bye

/-- The bye flag as consumed inside `swiss_pairings`; every player there
comes from the entrant join, so the entrant row exists and this equals
the Python value. -/
def byeFlag (db : DB) (player tournament : Nat) : Bool :=
  (player_has_received_bye db player tournament).getD false

/-- `update_match_wins`: `UPDATE player SET wins = wins + 1 WHERE id = p`. -/
def update_match_wins (db : DB) (player : Nat) : DB :=
  { db with players := db.players.map
              (fun p => if p.pid == player then { p with wins := p.wins + 1 } else p) }

/-- `update_matches_played`: `UPDATE player SET matches = matches + 1
WHERE id IN (ps)` — each matching table row is incremented once. -/
def update_matches_played (db : DB) (ps : List Nat) : DB :=
  { db with players := db.players.map
              (fun p => if ps.contains p.pid then { p with played := p.played + 1 } else p) }

/-- `report_match`: inserts the two match rows sharing one id, then
increments matches for both and wins for the winner (and for the loser
on a tie).  Returns the new database and the match id. -/
def report_match (db : DB) (winner loser tournament : Nat) (tie : Bool) : DB × Nat :=
  let match_id := db.next_match_id
  let row1 : MatchRow := ⟨match_id, winner, tournament, if tie then TIE else WIN⟩
  let db := { db with
    rows := db.rows ++ [row1],
    next_match_id := db.next_match_id + 1 }
  let row2 : MatchRow := ⟨match_id, loser, tournament, if tie then TIE else LOSS⟩
  let db := { db with rows := db.rows ++ [row2] }
  let db := update_matches_played db [winner, loser]
  let db := update_match_wins db winner
  let db := if tie then update_match_wins db loser else db
  (db, match_id)

/-- `report_match_bye`: sets the bye flag on every matching entrant row,
inserts one BYE match row, increments matches and wins for the player.
Returns the new database and the entrant-update rowcount. -/
def report_match_bye (db : DB) (player tournament : Nat) : DB × Nat :=
  let updated := (db.entrants.filter
    (fun e => e.player_id == player && e.tournament_id == tournament)).length
  let flagged := db.entrants.map
    (fun e => if e.player_id == player && e.tournament_id == tournament then
      { e with bye := true } else e)
  let db := { db with entrants := flagged }
  let byeRow : MatchRow := ⟨db.next_match_id, player, tournament, BYE⟩
  let db := { db with
    rows := db.rows ++ [byeRow],
    next_match_id := db.next_match_id + 1 }
  let db := update_matches_played db [player]
  let db := update_match_wins db player
  (db, updated)

/-- The `omw_sort` comparator: `-1` when wins are equal and player1's
opponent-match-wins exceed player2's; `1` in every other case. -/
def omw_sort (db : DB) (t : Nat) (p1 p2 : Standing) : Int :=
  if p1.wins = p2.wins ∧
      player_opponents_match_wins db p2.pid t < player_opponents_match_wins db p1.pid t
  then -1 else 1

/-- `rank_by_opponent_match_wins`: `sorted(standings, cmp=omw_sort)`. -/
def rank_by_opponent_match_wins (db : DB) (standings : List Standing) (t : Nat) :
    List Standing :=
  sortedCmp (fun a b => decide (omw_sort db t a b < 0)) standings

/-- `opponent_id not in opponents_played`: the rematch test of the
greedy loop. -/
def notPlayed (db : DB) (t : Nat) (player o : Pair) : Bool :=
  !(player_opponents db player.1 t).contains o.1

/-- One step of the greedy pairing `while` loop, with fuel for structural
recursion (fuel = list length suffices, each step consumes the head). -/
def pairLoopAux (db : DB) (t : Nat) : Nat → List Pair → List Pair × List Pair
  | 0, _ => ([], [])
  | _ + 1, [] => ([], [])
  | fuel + 1, player :: rest =>
    match rest.find? (notPlayed db t player) with
    | some opp =>
      let res := pairLoopAux db t fuel (rest.eraseP (notPlayed db t player))
      (player :: res.1, opp :: res.2)
    | none =>
      let res := pairLoopAux db t fuel rest
      (player :: res.1, res.2)

/-- The greedy pairing loop: repeatedly dequeue the first player, scan
the remaining list for the first opponent not already played, and move
both out of the pool; a player with no legal opponent is dequeued with
no opponent recorded. -/
def pairLoop (db : DB) (t : Nat) (l : List Pair) : List Pair × List Pair :=
  pairLoopAux db t l.length l

/-- The ranked standings trimmed to `(id, name)` pairs, as built at the
top of `swiss_pairings`. -/
def trimmedStandings (db : DB) (t : Nat) : List Pair :=
  (rank_by_opponent_match_wins db (player_standings_by_tournament db t) t).map
    (fun s => (s.pid, s.pname))

/-- `zip(players, opponents)` folded into `(id1, name1, id2, name2)` rows. -/
def mkPairings (pr : List Pair × List Pair) : List Pairing :=
  (pr.1.zip pr.2).map (fun q => (q.1.1, q.1.2, q.2.1, q.2.2))

/-- The bye phase of `swiss_pairings`: when the entrant count is odd,
scan the ranked list from the end for the first player without a bye,
record a bye for them and drop them from the working list; when every
player already has a bye the scan falls through and nothing happens. -/
def byeStep (db : DB) (t : Nat) : DB × List Pair :=
  let trimmed := trimmedStandings db t
  if trimmed.length % 2 ≠ 0 then
    match trimmed.reverse.find? (fun p => !byeFlag db p.1 t) with
    | some q => ((report_match_bye db q.1 t).1, trimmed.erase q)
    | none => (db, trimmed)
  else (db, trimmed)

/-- `swiss_pairings`: rank the tournament standings, give a bye to the
lowest-ranked bye-less player when the count is odd (removing them from
the working list), then run the greedy pairing loop and zip the results. -/
def swiss_pairings (db : DB) (t : Nat) : DB × List Pairing :=
  ((byeStep db t).1,
    mkPairings (pairLoop (byeStep db t).1 t (byeStep db t).2))

/-- The player-table row for an id, as a standings query would read it
back (first matching row). -/
def getPlayer (db : DB) (i : Nat) : Option Player :=
  db.players.find? (fun p => p.pid == i)

/-- The player ids appearing in a returned pairing list, in order. -/
def pairIds (prs : List Pairing) : List Nat :=
  prs.flatMap (fun q => [q.1, q.2.2.1])

/-- The number of BYE rows in the match table. -/
def byeRowCount (db : DB) : Nat :=
  (db.rows.filter (fun m => m.result_id == BYE)).length

/-! ### Concrete states used by counterexamples and witnesses -/

/-- Four freshly registered entrants of tournament 1. -/
def exDB0 : DB :=
  { players := [⟨1, "a", 0, 0⟩, ⟨2, "b", 0, 0⟩, ⟨3, "c", 0, 0⟩, ⟨4, "d", 0, 0⟩],
    entrants := [⟨1, 1, false⟩, ⟨2, 1, false⟩, ⟨3, 1, false⟩, ⟨4, 1, false⟩],
    rows := [],
    next_match_id := 0 }

/-- The state after player 1 beat players 2, 3 and 4 in turn: player 1
has already faced every other entrant. -/
def exDB : DB :=
  (report_match
    (report_match (report_match exDB0 1 2 1 false).1 1 3 1 false).1 1 4 1 false).1

/-- A single entrant, not yet byed. -/
def exDB5base : DB :=
  { players := [⟨1, "a", 0, 0⟩],
    entrants := [⟨1, 1, false⟩],
    rows := [],
    next_match_id := 0 }

/-- The state after a first successful bye for player 1: the bye flag is
already set. -/
def exDB5 : DB := (report_match_bye exDB5base 1 1).1

/-- Player 2 exists in the player table but is not an entrant of
tournament 1. -/
def exDB8 : DB :=
  { players := [⟨1, "a", 0, 0⟩, ⟨2, "b", 0, 0⟩],
    entrants := [⟨1, 1, false⟩],
    rows := [],
    next_match_id := 0 }

/-- Three entrants, every one already holding a bye. -/
def exDB7 : DB :=
  { players := [⟨1, "a", 1, 1⟩, ⟨2, "b", 1, 1⟩, ⟨3, "c", 1, 1⟩],
    entrants := [⟨1, 1, true⟩, ⟨2, 1, true⟩, ⟨3, 1, true⟩],
    rows := [⟨0, 1, 1, BYE⟩, ⟨1, 2, 1, BYE⟩, ⟨2, 3, 1, BYE⟩],
    next_match_id := 3 }

/-- Three entrants, none with a bye yet. -/
def exW7 : DB :=
  { players := [⟨1, "a", 0, 0⟩, ⟨2, "b", 0, 0⟩, ⟨3, "c", 0, 0⟩],
    entrants := [⟨1, 1, false⟩, ⟨2, 1, false⟩, ⟨3, 1, false⟩],
    rows := [],
    next_match_id := 0 }

/-! ### Generic facts about the stable comparator sort -/

theorem insertStable_perm (lt : α → α → Bool) (x : α) (l : List α) :
    List.Perm (insertStable lt x l) (x :: l) := by
  induction l with
  | nil => simp [insertStable]
  | cons y ys ih =>
    by_cases h : lt x y
    · simp [insertStable, h]
    · simp only [insertStable, h, Bool.false_eq_true, if_false]
      exact (ih.cons y).trans (List.Perm.swap x y ys)

theorem sortedCmp_foldl_perm (lt : α → α → Bool) (l : List α) :
    ∀ acc : List α,
      List.Perm (l.foldl (fun acc x => insertStable lt x acc) acc) (acc ++ l) := by
  induction l with
  | nil => intro acc; simp
  | cons x xs ih =>
    intro acc
    simp only [List.foldl_cons]
    exact (ih (insertStable lt x acc)).trans
      (((insertStable_perm lt x acc).append_right xs).trans List.perm_middle.symm)

/-- `sortedCmp` permutes its input. -/
theorem sortedCmp_perm (lt : α → α → Bool) (l : List α) :
    List.Perm (sortedCmp lt l) l := by
  simpa using sortedCmp_foldl_perm lt l []

/-- Inserting `x` below every element of a descending-key list keeps the
list descending, provided `lt` only fires between equal keys. -/
theorem insertStable_pairwise {key : α → Nat} {lt : α → α → Bool}
    (hlt : ∀ a b, lt a b = true → key a = key b) (x : α) :
    ∀ acc : List α, (∀ a ∈ acc, key x ≤ key a) →
      acc.Pairwise (fun a b => key b ≤ key a) →
      (insertStable lt x acc).Pairwise (fun a b => key b ≤ key a) := by
  intro acc
  induction acc with
  | nil => intro _ _; simp [insertStable]
  | cons y ys ih =>
    intro hup hpw
    rcases List.pairwise_cons.mp hpw with ⟨hy, hys⟩
    by_cases h : lt x y
    · have hxy : key x = key y := hlt x y h
      simp only [insertStable, h, if_true]
      refine List.pairwise_cons.mpr ⟨?_, hpw⟩
      intro z hz
      rcases List.mem_cons.mp hz with rfl | hz
      · exact hxy.ge
      · exact hxy ▸ hy z hz
    · simp only [insertStable, h, Bool.false_eq_true, if_false]
      refine List.pairwise_cons.mpr ⟨?_, ?_⟩
      · intro z hz
        rcases List.mem_cons.mp (((insertStable_perm lt x ys).mem_iff).mp hz) with rfl | hz
        · exact hup y (List.mem_cons_self y ys)
        · exact hy z hz
      · exact ih (fun a ha => hup a (List.mem_cons_of_mem y ha)) hys

/-- The stable comparator sort keeps a list whose keys descend
descending, when `lt` can only hold between equal keys. -/
theorem sortedCmp_pairwise (key : α → Nat) {lt : α → α → Bool}
    (hlt : ∀ a b, lt a b = true → key a = key b) (l : List α) :
    ∀ acc : List α, acc.Pairwise (fun a b => key b ≤ key a) →
      (∀ a ∈ acc, ∀ b ∈ l, key b ≤ key a) →
      l.Pairwise (fun a b => key b ≤ key a) →
      (l.foldl (fun acc x => insertStable lt x acc) acc).Pairwise
        (fun a b => key b ≤ key a) := by
  induction l with
  | nil => intro acc hacc _ _; simpa using hacc
  | cons x xs ih =>
    intro acc hacc hcross hl
    rcases List.pairwise_cons.mp hl with ⟨hx, hxs⟩
    simp only [List.foldl_cons]
    refine ih (insertStable lt x acc) ?_ ?_ hxs
    · exact insertStable_pairwise hlt x acc
        (fun a ha => hcross a ha x (List.mem_cons_self x xs)) hacc
    · intro a ha b hb
      rcases List.mem_cons.mp (((insertStable_perm lt x acc).mem_iff).mp ha) with rfl | ha
      · exact hx b hb
      · exact hcross a ha b (List.mem_cons_of_mem x hb)

/-! ### Facts about the greedy pairing loop -/

/-- A successful `find?` splits off the found element: the list is a
permutation of the element consed onto the list with it erased. -/
theorem perm_cons_eraseP {p : α → Bool} :
    ∀ {l : List α} {x : α}, l.find? p = some x → List.Perm l (x :: l.eraseP p) := by
  intro l
  induction l with
  | nil => intro x h; simp [List.find?] at h
  | cons y ys ih =>
    intro x h
    by_cases hy : p y
    · rw [List.find?_cons_of_pos _ hy] at h
      injection h with h
      subst h
      rw [List.eraseP_cons_of_pos hy]
    · rw [List.find?_cons_of_neg _ hy] at h
      rw [List.eraseP_cons_of_neg hy]
      exact ((ih h).cons y).trans (List.Perm.swap x y _)

/-- Every element of the working list ends up in exactly one of the two
output lists of the greedy loop. -/
theorem pairLoopAux_perm (db : DB) (t : Nat) :
    ∀ (fuel : Nat) (l : List Pair), l.length ≤ fuel →
      List.Perm ((pairLoopAux db t fuel l).1 ++ (pairLoopAux db t fuel l).2) l := by
  intro fuel
  induction fuel with
  | zero =>
    intro l hl
    rw [List.length_eq_zero.mp (Nat.le_zero.mp hl)]
    simp [pairLoopAux]
  | succ fuel ih =>
    intro l hl
    cases l with
    | nil => simp [pairLoopAux]
    | cons player rest =>
      have hrest : rest.length ≤ fuel := Nat.le_of_succ_le_succ hl
      cases hfind : rest.find? (notPlayed db t player) with
      | none =>
        simp only [pairLoopAux, hfind, List.cons_append]
        exact (ih rest hrest).cons player
      | some opp =>
        simp only [pairLoopAux, hfind, List.cons_append]
        have herase : (rest.eraseP (notPlayed db t player)).length ≤ fuel :=
          Nat.le_trans (List.eraseP_sublist rest).length_le hrest
        refine List.Perm.cons player ?_
        refine List.Perm.trans List.perm_middle ?_
        exact ((ih _ herase).cons opp).trans (perm_cons_eraseP hfind).symm

/-- `pairLoop` distributes the working list between players and opponents. -/
theorem pairLoop_perm (db : DB) (t : Nat) (l : List Pair) :
    List.Perm ((pairLoop db t l).1 ++ (pairLoop db t l).2) l :=
  pairLoopAux_perm db t l.length l (Nat.le_refl _)

/-- The ids of `zip(players, opponents)`, flattened in pair order, are a
permutation of a prefix of each side laid end to end. -/
theorem zip_flat_perm {α : Type _} : ∀ ps os : List α,
    List.Perm ((ps.zip os).flatMap (fun q => [q.1, q.2]))
      (ps.take os.length ++ os.take ps.length) := by
  intro ps
  induction ps with
  | nil => intro os; simp
  | cons p ps ih =>
    intro os
    cases os with
    | nil => simp
    | cons o os =>
      simp only [List.zip_cons_cons, List.flatMap_cons, List.length_cons,
        List.take_succ_cons, List.cons_append]
      refine List.Perm.cons p ?_
      exact ((ih os).cons o).trans List.perm_middle.symm

/-- The ids of the final pairing list, as a permutation of prefixes of
the players' and opponents' id lists. -/
theorem pairIds_mkPairings : ∀ ps os : List Pair,
    List.Perm (pairIds (mkPairings (ps, os)))
      ((ps.map Prod.fst).take os.length ++ (os.map Prod.fst).take ps.length) := by
  intro ps
  induction ps with
  | nil => intro os; simp [pairIds, mkPairings]
  | cons p ps ih =>
    intro os
    cases os with
    | nil => simp [pairIds, mkPairings]
    | cons o os =>
      simp only [mkPairings, pairIds, List.zip_cons_cons, List.map_cons,
        List.flatMap_cons, List.length_cons, List.take_succ_cons, List.cons_append]
      refine List.Perm.cons p.1 ?_
      have ih2 := ih os
      simp only [pairIds, mkPairings] at ih2
      exact (ih2.cons o.1).trans List.perm_middle.symm

/-- The bye phase either leaves the working list alone or erases the
player found by the backwards scan. -/
theorem byeStep_snd_cases (db : DB) (t : Nat) :
    (byeStep db t).2 = trimmedStandings db t ∨
      ∃ q, (byeStep db t).2 = (trimmedStandings db t).erase q := by
  unfold byeStep
  by_cases hodd : (trimmedStandings db t).length % 2 ≠ 0
  · rw [if_pos hodd]
    cases hfind : (trimmedStandings db t).reverse.find? (fun p => !byeFlag db p.1 t) with
    | none => exact Or.inl rfl
    | some q => exact Or.inr ⟨q, rfl⟩
  · rw [if_neg hodd]
    exact Or.inl rfl

/-! ### Facts about the Match Recorder -/

/-- `find?` by id commutes with an id-preserving row update. -/
theorem find?_pid_map (l : List Player) (f : Player → Player)
    (hid : ∀ p, (f p).pid = p.pid) (i : Nat) :
    (l.map f).find? (fun p => p.pid == i) = (l.find? (fun p => p.pid == i)).map f := by
  have hfun : ((fun p : Player => p.pid == i) ∘ f) = (fun p : Player => p.pid == i) := by
    funext p
    simp [hid p]
  rw [List.find?_map, hfun]

theorem getPlayer_eq_of_players_eq {db1 db2 : DB} (h : db1.players = db2.players)
    (i : Nat) : getPlayer db1 i = getPlayer db2 i := by
  unfold getPlayer
  rw [h]

theorem getPlayer_update_matches_played (db : DB) (ps : List Nat) (i : Nat) :
    getPlayer (update_matches_played db ps) i =
      (getPlayer db i).map
        (fun p => if ps.contains p.pid then { p with played := p.played + 1 } else p) := by
  unfold getPlayer update_matches_played
  exact find?_pid_map _ _ (fun p => by split <;> rfl) i

theorem getPlayer_update_match_wins (db : DB) (w i : Nat) :
    getPlayer (update_match_wins db w) i =
      (getPlayer db i).map
        (fun p => if p.pid == w then { p with wins := p.wins + 1 } else p) := by
  unfold getPlayer update_match_wins
  exact find?_pid_map _ _ (fun p => by split <;> rfl) i

/-! ### Claim theorems -/

/-- C3: after `record_match(W, L, T, tie=false)` the winner gains one
win and one match and the loser gains one match but no win; after
`record_match(A, B, T, tie=true)` both players gain one win and one
match. -/
theorem report_match_counters (db : DB) (W L T : Nat) (pw pl : Player)
    (hW : getPlayer db W = some pw) (hL : getPlayer db L = some pl) (hne : W ≠ L) :
    (getPlayer (report_match db W L T false).1 W
        = some { pw with wins := pw.wins + 1, played := pw.played + 1 } ∧
      getPlayer (report_match db W L T false).1 L
        = some { pl with played := pl.played + 1 }) ∧
    (getPlayer (report_match db W L T true).1 W
        = some { pw with wins := pw.wins + 1, played := pw.played + 1 } ∧
      getPlayer (report_match db W L T true).1 L
        = some { pl with wins := pl.wins + 1, played := pl.played + 1 }) := by
  have hW' : db.players.find? (fun p => p.pid == W) = some pw := hW
  have hL' : db.players.find? (fun p => p.pid == L) = some pl := hL
  have hWid : pw.pid = W := by simpa using List.find?_some hW'
  have hLid : pl.pid = L := by simpa using List.find?_some hL'
  have hfalse : (report_match db W L T false).1.players
      = (update_match_wins (update_matches_played db [W, L]) W).players := rfl
  have htrue : (report_match db W L T true).1.players
      = (update_match_wins
          (update_match_wins (update_matches_played db [W, L]) W) L).players := rfl
  have hLW : (L == W) = false := by
    simp [Ne.symm hne]
  refine ⟨⟨?_, ?_⟩, ⟨?_, ?_⟩⟩
  · rw [getPlayer_eq_of_players_eq hfalse, getPlayer_update_match_wins,
      getPlayer_update_matches_played, hW]
    simp [hWid]
  · rw [getPlayer_eq_of_players_eq hfalse, getPlayer_update_match_wins,
      getPlayer_update_matches_played, hL]
    simp [hLid, Ne.symm hne]
  · rw [getPlayer_eq_of_players_eq htrue, getPlayer_update_match_wins,
      getPlayer_update_match_wins, getPlayer_update_matches_played, hW]
    simp [hWid, Ne.symm hne, hne]
  · rw [getPlayer_eq_of_players_eq htrue, getPlayer_update_match_wins,
      getPlayer_update_match_wins, getPlayer_update_matches_played, hL]
    simp [hLid, Ne.symm hne]

/-- Witness for C3 at a concrete two-player state. -/
theorem report_match_counters_witness :
    getPlayer (report_match exDB0 1 2 1 false).1 1 = some ⟨1, "a", 1, 1⟩ ∧
      getPlayer (report_match exDB0 1 2 1 false).1 2 = some ⟨2, "b", 0, 1⟩ :=
  (report_match_counters exDB0 1 2 1 ⟨1, "a", 0, 0⟩ ⟨2, "b", 0, 0⟩
    (by rfl) (by rfl) (by decide)).1

/-- C4: the Tie-Break Ranker re-orders only within equal-wins groups.
On an input pre-sorted descending by wins the output is a permutation
that is still pairwise descending by wins; since distinct win counts are
strictly ordered on both sides, any two standings with different win
counts keep their relative order (higher wins first), so only
equal-wins groups can be re-ordered. -/
theorem rank_reorders_only_within_equal_wins (db : DB) (t : Nat)
    (standings : List Standing)
    (h : standings.Pairwise (fun a b => b.wins ≤ a.wins)) :
    List.Perm (rank_by_opponent_match_wins db standings t) standings ∧
    (rank_by_opponent_match_wins db standings t).Pairwise
      (fun a b => b.wins ≤ a.wins) := by
  have hlt : ∀ a b : Standing, decide (omw_sort db t a b < 0) = true →
      a.wins = b.wins := by
    intro a b hab
    have h0 : omw_sort db t a b < 0 := of_decide_eq_true hab
    unfold omw_sort at h0
    by_cases hc : a.wins = b.wins ∧
        player_opponents_match_wins db b.pid t < player_opponents_match_wins db a.pid t
    · exact hc.1
    · rw [if_neg hc] at h0
      omega
  refine ⟨sortedCmp_perm _ standings, ?_⟩
  have hmain := sortedCmp_pairwise Standing.wins hlt standings []
    (by simp) (by simp) h
  simpa [rank_by_opponent_match_wins, sortedCmp] using hmain

/-- Witness for C4 at a concrete sorted standings list. -/
theorem rank_reorders_witness :
    List.Perm
        (rank_by_opponent_match_wins exDB0
          [⟨1, "a", 2, 2⟩, ⟨2, "b", 1, 1⟩, ⟨3, "c", 1, 1⟩] 1)
        [⟨1, "a", 2, 2⟩, ⟨2, "b", 1, 1⟩, ⟨3, "c", 1, 1⟩] ∧
      (rank_by_opponent_match_wins exDB0
          [⟨1, "a", 2, 2⟩, ⟨2, "b", 1, 1⟩, ⟨3, "c", 1, 1⟩] 1).Pairwise
        (fun a b => b.wins ≤ a.wins) :=
  rank_reorders_only_within_equal_wins exDB0 1 _ (by decide)

/-- C9: in the list returned by `swiss_pairings` each player id occurs
at most once across all pairs and the two ids inside each pair are
distinct — all ids in the flattened pairing list are pairwise distinct —
provided the tournament standings carry no duplicate player ids. -/
theorem swiss_pairings_ids_nodup (db : DB) (t : Nat)
    (h : ((player_standings_by_tournament db t).map Standing.pid).Nodup) :
    (pairIds (swiss_pairings db t).2).Nodup := by
  have hrank : ((rank_by_opponent_match_wins db
      (player_standings_by_tournament db t) t).map Standing.pid).Nodup :=
    (((sortedCmp_perm _ _).map Standing.pid).symm).nodup h
  have htrim : ((trimmedStandings db t).map Prod.fst).Nodup := by
    unfold trimmedStandings
    rw [List.map_map]
    exact hrank
  have hwork : (((byeStep db t).2).map Prod.fst).Nodup := by
    rcases byeStep_snd_cases db t with he | ⟨q, he⟩ <;> rw [he]
    · exact htrim
    · exact List.Nodup.sublist ((List.erase_sublist q _).map Prod.fst) htrim
  have hperm := pairLoop_perm (byeStep db t).1 t (byeStep db t).2
  have hcat : (((pairLoop (byeStep db t).1 t (byeStep db t).2).1 ++
      (pairLoop (byeStep db t).1 t (byeStep db t).2).2).map Prod.fst).Nodup :=
    ((hperm.map Prod.fst).symm).nodup hwork
  rw [List.map_append] at hcat
  have hsub : (((pairLoop (byeStep db t).1 t (byeStep db t).2).1.map Prod.fst).take
        (pairLoop (byeStep db t).1 t (byeStep db t).2).2.length ++
      ((pairLoop (byeStep db t).1 t (byeStep db t).2).2.map Prod.fst).take
        (pairLoop (byeStep db t).1 t (byeStep db t).2).1.length).Nodup :=
    List.Nodup.sublist
      ((List.take_sublist _ _).append (List.take_sublist _ _)) hcat
  have hfin := pairIds_mkPairings (pairLoop (byeStep db t).1 t (byeStep db t).2).1
    (pairLoop (byeStep db t).1 t (byeStep db t).2).2
  exact (hfin.symm).nodup hsub

/-- Witness for C9 at the concrete four-player state. -/
theorem swiss_pairings_ids_nodup_witness :
    (pairIds (swiss_pairings exDB 1).2).Nodup :=
  swiss_pairings_ids_nodup exDB 1 (by decide)

/-- C10: `player_has_received_bye` returns the stored bye flag when an
entrant record exists, and with no entrant record its result-extraction
has no row to index — the operation fails (`none`) rather than
returning `false`. -/
theorem player_has_received_bye_spec (db : DB) (P T : Nat) :
    ((∃ e ∈ db.entrants, e.player_id = P ∧ e.tournament_id = T) →
      ∃ e, e ∈ db.entrants ∧ e.player_id = P ∧ e.tournament_id = T ∧
        player_has_received_bye db P T = some e.bye) ∧
    ((∀ e ∈ db.entrants, ¬(e.player_id = P ∧ e.tournament_id = T)) →
      player_has_received_bye db P T = none) := by
  constructor
  · rintro ⟨e, he, hid, ht⟩
    cases hf : db.entrants.filter
        (fun e => e.player_id == P && e.tournament_id == T) with
    | nil =>
      exfalso
      have hne := List.filter_eq_nil_iff.mp hf e he
      simp [hid, ht] at hne
    | cons e0 rest =>
      have hmem : e0 ∈ db.entrants.filter
          (fun e => e.player_id == P && e.tournament_id == T) := by
        rw [hf]
        exact List.mem_cons_self e0 rest
      have h0 := List.mem_filter.mp hmem
      have hids : e0.player_id = P ∧ e0.tournament_id = T := by
        have h2 := h0.2
        simp only [Bool.and_eq_true, beq_iff_eq] at h2
        exact h2
      refine ⟨e0, h0.1, hids.1, hids.2, ?_⟩
      unfold player_has_received_bye
      rw [hf]
      rfl
  · intro hall
    unfold player_has_received_bye
    have hnil : db.entrants.filter
        (fun e => e.player_id == P && e.tournament_id == T) = [] := by
      rw [List.filter_eq_nil_iff]
      intro e he
      simp only [Bool.and_eq_true, beq_iff_eq]
      intro hc
      exact hall e he hc
    rw [hnil]
    rfl

/-- Witness for C10: an existing entrant yields its stored flag, a
missing entrant yields no value at all. -/
theorem player_has_received_bye_witness :
    (∃ e, e ∈ exDB0.entrants ∧ e.player_id = 1 ∧ e.tournament_id = 1 ∧
        player_has_received_bye exDB0 1 1 = some e.bye) ∧
      player_has_received_bye exDB0 5 1 = none :=
  ⟨(player_has_received_bye_spec exDB0 1 1).1 ⟨⟨1, 1, false⟩, by decide, rfl, rfl⟩,
    (player_has_received_bye_spec exDB0 5 1).2 (by decide)⟩

/-- C5 counterexample: with the bye flag already set, a second
`report_match_bye` does not fail with `AlreadyByedError` — it reports
success (entrant rowcount 1) and increments the player's wins and
matches again. -/
theorem report_match_bye_no_recheck_counterexample :
    byeFlag exDB5 1 1 = true ∧
      (report_match_bye exDB5 1 1).2 = 1 ∧
      getPlayer (report_match_bye exDB5 1 1).1 1 = some ⟨1, "a", 2, 2⟩ :=
  ⟨rfl, rfl, rfl⟩

/-- C5 amended: `report_match_bye` never inspects the bye flag; for any
player row it increments wins and matches and force-sets every matching
entrant flag, whether or not the flag was already true. -/
theorem report_match_bye_increments_unconditionally (db : DB) (P T : Nat)
    (p : Player) (hp : getPlayer db P = some p) :
    getPlayer (report_match_bye db P T).1 P
        = some { p with wins := p.wins + 1, played := p.played + 1 } ∧
      ∀ e ∈ (report_match_bye db P T).1.entrants,
        e.player_id = P → e.tournament_id = T → e.bye = true := by
  have hp' : db.players.find? (fun x => x.pid == P) = some p := hp
  have hPid : p.pid = P := by simpa using List.find?_some hp'
  constructor
  · have hpl : (report_match_bye db P T).1.players
        = (update_match_wins (update_matches_played db [P]) P).players := rfl
    rw [getPlayer_eq_of_players_eq hpl, getPlayer_update_match_wins,
      getPlayer_update_matches_played, hp]
    simp [hPid]
  · intro e he hid htid
    have he' : e ∈ db.entrants.map (fun e =>
        if e.player_id == P && e.tournament_id == T then
          { e with bye := true } else e) := he
    obtain ⟨e0, _, rfl⟩ := List.mem_map.mp he'
    by_cases hc : (e0.player_id == P && e0.tournament_id == T) = true
    · rw [if_pos hc]
    · rw [if_neg hc] at hid htid ⊢
      exact absurd (by simp [hid, htid]) hc

/-- Witness for C5 at the already-byed concrete state. -/
theorem report_match_bye_increments_witness :
    getPlayer (report_match_bye exDB5 1 1).1 1 = some ⟨1, "a", 2, 2⟩ :=
  (report_match_bye_increments_unconditionally exDB5 1 1 ⟨1, "a", 1, 1⟩ rfl).1

/-- C8 counterexample: reporting a match whose loser is not an entrant
of the tournament does not fail with `NotFoundError`: both match rows
are created and the non-entrant's counters change. -/
theorem report_match_no_entrant_check_counterexample :
    (∀ e ∈ exDB8.entrants, e.player_id ≠ 2) ∧
      (report_match exDB8 1 2 1 false).2 = 0 ∧
      (report_match exDB8 1 2 1 false).1.rows
        = [⟨0, 1, 1, WIN⟩, ⟨0, 2, 1, LOSS⟩] ∧
      getPlayer (report_match exDB8 1 2 1 false).1 2 = some ⟨2, "b", 0, 1⟩ :=
  ⟨by decide, rfl, rfl, rfl⟩

/-- C8 amended: `report_match` performs no entrant-membership
validation — even when the loser is not an entrant of the tournament it
inserts both match rows and returns the fresh match id normally. -/
theorem report_match_ignores_entrants (db : DB) (W L T : Nat) (tie : Bool)
    (_hL : ∀ e ∈ db.entrants, ¬(e.player_id = L ∧ e.tournament_id = T)) :
    (report_match db W L T tie).1.rows
        = db.rows ++ [⟨db.next_match_id, W, T, if tie then TIE else WIN⟩,
            ⟨db.next_match_id, L, T, if tie then TIE else LOSS⟩] ∧
      (report_match db W L T tie).2 = db.next_match_id := by
  constructor
  · cases tie <;>
      simp [report_match, update_matches_played, update_match_wins,
        List.append_assoc]
  · cases tie <;> rfl

/-- Witness for C8: the update goes through at the concrete state whose
loser has no entrant row. -/
theorem report_match_ignores_entrants_witness :
    (report_match exDB8 1 2 1 false).1.rows
        = [⟨0, 1, 1, WIN⟩, ⟨0, 2, 1, LOSS⟩] ∧
      (report_match exDB8 1 2 1 false).2 = 0 :=
  report_match_ignores_entrants exDB8 1 2 1 false (by decide)

/-- The trimmed ranked list has exactly one entry per standings row. -/
theorem trimmedStandings_length (db : DB) (t : Nat) :
    (trimmedStandings db t).length = (player_standings_by_tournament db t).length := by
  unfold trimmedStandings
  rw [List.length_map]
  exact (sortedCmp_perm _ _).length_eq

/-- The bye phase never grows the working list. -/
theorem byeStep_length_le (db : DB) (t : Nat) :
    (byeStep db t).2.length ≤ (trimmedStandings db t).length := by
  rcases byeStep_snd_cases db t with he | ⟨q, he⟩
  · rw [he]
  · rw [he]
    exact (List.erase_sublist _ _).length_le

/-- `report_match_bye` adds exactly one BYE row to the match table. -/
theorem byeRowCount_report_match_bye (db : DB) (p t : Nat) :
    byeRowCount (report_match_bye db p t).1 = byeRowCount db + 1 := by
  simp [byeRowCount, report_match_bye, update_matches_played, update_match_wins,
    List.filter_append]

/-- Twice the number of returned pairs never exceeds the working list. -/
theorem swiss_pairings_two_mul_length_le (db : DB) (t : Nat) :
    2 * (swiss_pairings db t).2.length ≤ (trimmedStandings db t).length := by
  have hlen := (pairLoop_perm (byeStep db t).1 t (byeStep db t).2).length_eq
  rw [List.length_append] at hlen
  have hz : (swiss_pairings db t).2.length
      = min (pairLoop (byeStep db t).1 t (byeStep db t).2).1.length
          (pairLoop (byeStep db t).1 t (byeStep db t).2).2.length := by
    show (mkPairings _).length = _
    unfold mkPairings
    rw [List.length_map, List.length_zip]
  have hmin1 := Nat.min_le_left (pairLoop (byeStep db t).1 t (byeStep db t).2).1.length
    (pairLoop (byeStep db t).1 t (byeStep db t).2).2.length
  have hmin2 := Nat.min_le_right (pairLoop (byeStep db t).1 t (byeStep db t).2).1.length
    (pairLoop (byeStep db t).1 t (byeStep db t).2).2.length
  have hwl := byeStep_length_le db t
  omega

/-- C1 counterexample: a tournament of four entrants for which
`swiss_pairings` returns one pair, not `4 / 2 = 2`. -/
theorem swiss_pairings_count_counterexample :
    (player_standings_by_tournament exDB 1).length = 4 ∧
      (swiss_pairings exDB 1).2.length ≠ 4 / 2 :=
  ⟨rfl, by decide⟩

/-- C1 amended: `swiss_pairings` returns at most `⌊N/2⌋` pairs; with an
even entrant count no bye is recorded (the state is untouched); with an
odd count exactly one bye is recorded when some ranked entrant lacks a
bye, and none when every entrant already holds one. -/
theorem swiss_pairings_count (db : DB) (t : Nat) :
    (swiss_pairings db t).2.length ≤ (player_standings_by_tournament db t).length / 2 ∧
      ((player_standings_by_tournament db t).length % 2 = 0 →
        (swiss_pairings db t).1 = db) ∧
      ((player_standings_by_tournament db t).length % 2 = 1 →
        (∃ q ∈ trimmedStandings db t, byeFlag db q.1 t = false) →
        byeRowCount (swiss_pairings db t).1 = byeRowCount db + 1) ∧
      ((player_standings_by_tournament db t).length % 2 = 1 →
        (∀ q ∈ trimmedStandings db t, byeFlag db q.1 t = true) →
        (swiss_pairings db t).1 = db) := by
  have htl := trimmedStandings_length db t
  refine ⟨?_, ?_, ?_, ?_⟩
  · have := swiss_pairings_two_mul_length_le db t
    omega
  · intro heven
    show (byeStep db t).1 = db
    unfold byeStep
    rw [if_neg (by omega)]
  · intro hodd hex
    obtain ⟨q, hq, hflag⟩ := hex
    cases hfind : (trimmedStandings db t).reverse.find? (fun p => !byeFlag db p.1 t) with
    | none =>
      exfalso
      have := List.find?_eq_none.mp hfind q (List.mem_reverse.mpr hq)
      simp [hflag] at this
    | some q0 =>
      have hfst : (swiss_pairings db t).1 = (report_match_bye db q0.1 t).1 := by
        show (byeStep db t).1 = _
        unfold byeStep
        rw [if_pos (by omega), hfind]
      rw [hfst, byeRowCount_report_match_bye]
  · intro hodd hall
    show (byeStep db t).1 = db
    unfold byeStep
    rw [if_pos (by omega), List.find?_eq_none.mpr ?_]
    intro x hx
    simp [hall x (List.mem_reverse.mp hx)]

/-- Witness for C1 at two concrete states: even count leaves the state
alone and the bound holds; odd count with a bye-less entrant records
exactly one bye. -/
theorem swiss_pairings_count_witness :
    (swiss_pairings exDB0 1).2.length
        ≤ (player_standings_by_tournament exDB0 1).length / 2 ∧
      (swiss_pairings exDB0 1).1 = exDB0 ∧
      byeRowCount (swiss_pairings exW7 1).1 = byeRowCount exW7 + 1 :=
  ⟨(swiss_pairings_count exDB0 1).1,
    (swiss_pairings_count exDB0 1).2.1 (by decide),
    (swiss_pairings_count exW7 1).2.2.1 (by decide) (by decide)⟩

/-- C7 counterexample: odd field with every entrant already byed — no
`NoEligiblePlayerError` is possible: the call returns normally, records
no bye, and silently drops the last ranked player from the round. -/
theorem swiss_pairings_all_byed_counterexample :
    (player_standings_by_tournament exDB7 1).length = 3 ∧
      (∀ q ∈ trimmedStandings exDB7 1, byeFlag exDB7 q.1 1 = true) ∧
      (swiss_pairings exDB7 1).1 = exDB7 ∧
      (swiss_pairings exDB7 1).2 = [(1, "a", 2, "b")] :=
  ⟨rfl, by decide, rfl, rfl⟩

/-- C7 amended: with an odd entrant count, if every ranked player
already holds a bye the call proceeds with no bye and the full odd
working list; otherwise the bye goes to the last ranked player without
one (the lowest-ranked eligible player), who is removed from the
working list before pairing. -/
theorem swiss_bye_policy (db : DB) (t : Nat)
    (hodd : (trimmedStandings db t).length % 2 = 1) :
    ((∀ r ∈ trimmedStandings db t, byeFlag db r.1 t = true) →
        (swiss_pairings db t).1 = db ∧
          (swiss_pairings db t).2
            = mkPairings (pairLoop db t (trimmedStandings db t))) ∧
      (∀ (l₁ l₂ : List Pair) (q : Pair), trimmedStandings db t = l₁ ++ q :: l₂ →
        byeFlag db q.1 t = false →
        (∀ r ∈ l₂, byeFlag db r.1 t = true) →
        q ∉ l₁ →
        (swiss_pairings db t).1 = (report_match_bye db q.1 t).1 ∧
          (swiss_pairings db t).2
            = mkPairings (pairLoop (report_match_bye db q.1 t).1 t (l₁ ++ l₂))) := by
  constructor
  · intro hall
    have hb : byeStep db t = (db, trimmedStandings db t) := by
      unfold byeStep
      rw [if_pos (by omega), List.find?_eq_none.mpr ?_]
      intro x hx
      simp [hall x (List.mem_reverse.mp hx)]
    constructor
    · show (byeStep db t).1 = db
      rw [hb]
    · show mkPairings (pairLoop (byeStep db t).1 t (byeStep db t).2) = _
      rw [hb]
  · intro l₁ l₂ q hdec hq hl₂ hnotin
    have hfind : (trimmedStandings db t).reverse.find? (fun p => !byeFlag db p.1 t)
        = some q := by
      rw [hdec, List.reverse_append, List.reverse_cons, List.find?_append,
        List.find?_append]
      have h2 : l₂.reverse.find? (fun p => !byeFlag db p.1 t) = none :=
        List.find?_eq_none.mpr
          (fun x hx => by simp [hl₂ x (List.mem_reverse.mp hx)])
      rw [h2]
      simp [List.find?, hq]
    have hb : byeStep db t
        = ((report_match_bye db q.1 t).1, (trimmedStandings db t).erase q) := by
      unfold byeStep
      rw [if_pos (by omega), hfind]
    have herase : (trimmedStandings db t).erase q = l₁ ++ l₂ := by
      rw [hdec, List.erase_append_right _ hnotin, List.erase_cons_head]
    constructor
    · show (byeStep db t).1 = _
      rw [hb]
    · show mkPairings (pairLoop (byeStep db t).1 t (byeStep db t).2) = _
      rw [hb, herase]

/-- Witness for C7: the lowest-ranked bye-less player of the concrete
odd state receives the bye and is removed before pairing. -/
theorem swiss_bye_policy_witness :
    (swiss_pairings exW7 1).1 = (report_match_bye exW7 3 1).1 ∧
      (swiss_pairings exW7 1).2
        = mkPairings (pairLoop (report_match_bye exW7 3 1).1 1
            [(1, "a"), (2, "b")]) :=
  (swiss_bye_policy exW7 1 (by decide)).2 [(1, "a"), (2, "b")] [] (3, "c")
    rfl rfl (by decide) (by decide)

/-- C2 (code bug): at `exDB` the returned pairing `(1, 3)` repeats an
already-played matchup — 3 is among player 1's opponents computed from
the state before the call. -/
theorem swiss_pairings_repeats_opponent :
    (swiss_pairings exDB 1).2 = [(1, "a", 3, "c")] ∧
      3 ∈ player_opponents exDB 1 1 :=
  ⟨rfl, by decide⟩

/-- C6 (code bug): at `exDB` the first ranked player has already faced
every remaining candidate, yet `swiss_pairings` raises nothing — it
returns a silently mis-paired, truncated list instead. -/
theorem swiss_pairings_never_raises :
    trimmedStandings exDB 1 = (1, "a") :: [(2, "b"), (3, "c"), (4, "d")] ∧
      (∀ o ∈ [(2, "b"), (3, "c"), (4, "d")],
        notPlayed exDB 1 (1, "a") o = false) ∧
      (swiss_pairings exDB 1).2 = [(1, "a", 3, "c")] :=
  ⟨rfl, by decide, rfl⟩
end Tournament
